import Mathlib

/-!
Verification development for the Naver-cafe comment bot (`src/main.py`).

The Python source drives a browser session; all browser, console and
language-model primitives are modelled as explicit environment records
(`VisitEnv`, `SubmitEnv`, `GenEnv`, per-post `PostEnv`), and every Python
function relevant to the claims is translated into a total Lean function
over those environments.  Exceptions raised by a primitive are modelled by
`Option`/`Bool` outcomes; a Python `try/except` becomes the corresponding
case split, exactly where the source places it.
-/

/-- Python `str.strip()` / regex whitespace class, restricted to the ASCII
whitespace characters that the source's data can contain. -/
def pyWhitespaceChar (c : Char) : Bool :=
  c = ' ' || c = '\t' || c = '\n' || c = '\r' || c = '\x0b' || c = '\x0c'

/-- The character class kept by `re.sub(r'[^가-힣a-zA-Z0-9\s]', '', ...)` in
`get_chatgpt_comment` (src/main.py:409): Hangul syllables, ASCII letters,
ASCII digits and whitespace. -/
def allowedChar (c : Char) : Bool :=
  ('가' ≤ c && c ≤ '힣') || ('a' ≤ c && c ≤ 'z') || ('A' ≤ c && c ≤ 'Z')
    || ('0' ≤ c && c ≤ '9') || pyWhitespaceChar c

/-- Python `str.strip()` on a character list: drop whitespace from both
ends (src/main.py:412,621 and every `.strip()` call site). -/
def stripChars (l : List Char) : List Char :=
  ((l.dropWhile pyWhitespaceChar).reverse.dropWhile pyWhitespaceChar).reverse

/-- Python `str.strip()` lifted to `String`. -/
def pyStrip (s : String) : String :=
  String.mk (stripChars s.data)

/-- The fixed trailing marker appended by `get_chatgpt_comment`
(src/main.py:415-416): the four characters of the closing marker. -/
def commentMarker : List Char := ['!', ' ', ':', ')']

/-- Post-processing of the raw model response in `get_chatgpt_comment`
(src/main.py:408-416): strip disallowed characters, trim, and append the
closing marker when the remainder is non-empty. -/
def sanitizeComment (raw : List Char) : List Char :=
  let t := stripChars (raw.filter allowedChar)
  if t.isEmpty then [] else t ++ commentMarker

/-- `sanitizeComment` lifted to `String`. -/
def sanitizeStr (s : String) : String :=
  String.mk (sanitizeComment s.data)

/-- Duplicate removal with order preservation in
`process_board_by_article_numbers` (src/main.py:155-161): `seen` is the
set accumulated so far, the result keeps first occurrences. -/
def dedupAux : List Nat → List Nat → List Nat
  | [], _ => []
  | n :: rest, seen =>
    if n ∈ seen then dedupAux rest seen else n :: dedupAux rest (n :: seen)

/-- The deduplication pass applied to the collected article numbers
(src/main.py:155-161), starting from an empty `seen` set. -/
def dedupFirstSeen (l : List Nat) : List Nat :=
  dedupAux l []

section SelectorCascade

variable {H : Type}

/-- `find_element_by_selectors` (src/main.py:267-289): try each selector in
order against the context; return the first element of the first selector
with a non-zero match count, together with that selector, or `none` when
every selector yields no match.  The query context is modelled as a
function from a selector to its DOM-ordered match list, following the
external-interface contract `query(context, pattern) -> zero-or-more
element handles`. -/
def find_element_by_selectors (ctx : String → List H) : List String → Option (H × String)
  | [] => none
  | s :: rest =>
    match ctx s with
    | [] => find_element_by_selectors ctx rest
    | h :: _ => some (h, s)

end SelectorCascade

-- Lemmas about the deduplication pass -----------------------------------

theorem mem_dedupAux (a : Nat) : ∀ (l seen : List Nat),
    a ∈ dedupAux l seen ↔ a ∈ l ∧ a ∉ seen := by
  intro l
  induction l with
  | nil => intro seen; simp [dedupAux]
  | cons n rest ih =>
    intro seen
    by_cases hn : n ∈ seen
    · rw [dedupAux, if_pos hn, ih, List.mem_cons]
      constructor
      · rintro ⟨h1, h2⟩; exact ⟨Or.inr h1, h2⟩
      · rintro ⟨h1 | h1, h2⟩
        · exact absurd (h1 ▸ hn) h2
        · exact ⟨h1, h2⟩
    · rw [dedupAux, if_neg hn]
      constructor
      · intro h
        rcases List.mem_cons.mp h with rfl | h
        · exact ⟨List.mem_cons_self a rest, hn⟩
        · obtain ⟨h1, h2⟩ := (ih (n :: seen)).mp h
          exact ⟨List.mem_cons_of_mem _ h1, fun hc => h2 (List.mem_cons_of_mem _ hc)⟩
      · rintro ⟨h1, h2⟩
        rcases List.mem_cons.mp h1 with rfl | h1
        · exact List.mem_cons_self a _
        · by_cases han : a = n
          · exact han ▸ List.mem_cons_self n _
          · refine List.mem_cons_of_mem _ ((ih (n :: seen)).mpr ⟨h1, ?_⟩)
            intro hc
            rcases List.mem_cons.mp hc with hc2 | hc2
            · exact han hc2
            · exact h2 hc2

theorem nodup_dedupAux : ∀ (l seen : List Nat), (dedupAux l seen).Nodup := by
  intro l
  induction l with
  | nil => intro seen; simp [dedupAux]
  | cons n rest ih =>
    intro seen
    by_cases hn : n ∈ seen
    · simpa [dedupAux, if_pos hn] using ih seen
    · simp only [dedupAux, if_neg hn]
      refine List.nodup_cons.mpr ⟨?_, ih (n :: seen)⟩
      intro hc
      exact ((mem_dedupAux n rest (n :: seen)).mp hc).2 (List.mem_cons_self n seen)

theorem dedupAux_sublist : ∀ (l seen : List Nat), List.Sublist (dedupAux l seen) l := by
  intro l
  induction l with
  | nil => intro seen; simp [dedupAux]
  | cons n rest ih =>
    intro seen
    by_cases hn : n ∈ seen
    · simpa [dedupAux, if_pos hn] using (ih seen).cons n
    · simpa [dedupAux, if_neg hn] using (ih (n :: seen)).cons₂ n

theorem dedupAux_eq_self_of_nodup : ∀ (l seen : List Nat), l.Nodup →
    (∀ a ∈ l, a ∉ seen) → dedupAux l seen = l := by
  intro l
  induction l with
  | nil => intro seen _ _; rfl
  | cons n rest ih =>
    intro seen hnd hdisj
    have hn : n ∉ seen := hdisj n (List.mem_cons_self n rest)
    simp only [dedupAux, if_neg hn]
    have hrest : rest.Nodup := (List.nodup_cons.mp hnd).2
    have hnr : n ∉ rest := (List.nodup_cons.mp hnd).1
    refine congrArg (n :: ·) (ih (n :: seen) hrest ?_)
    intro a ha hc
    rcases List.mem_cons.mp hc with rfl | hc2
    · exact hnr ha
    · exact hdisj a (List.mem_cons_of_mem _ ha) hc2

theorem dedupAux_pairwise_indexOf : ∀ (l seen : List Nat),
    (dedupAux l seen).Pairwise (fun a b => l.indexOf a < l.indexOf b) := by
  intro l
  induction l with
  | nil => intro seen; simp [dedupAux]
  | cons n rest ih =>
    intro seen
    have hmem : ∀ a ∈ dedupAux rest (n :: seen), a ≠ n := by
      intro a ha
      have := (mem_dedupAux a rest (n :: seen)).mp ha
      intro hc
      exact this.2 (hc ▸ List.mem_cons_self n seen)
    by_cases hn : n ∈ seen
    · simp only [dedupAux, if_pos hn]
      have hmem2 : ∀ a ∈ dedupAux rest seen, a ≠ n := by
        intro a ha hc
        exact ((mem_dedupAux a rest seen).mp ha).2 (hc ▸ hn)
      refine List.Pairwise.imp_of_mem ?_ (ih seen)
      intro a b ha hb hlt
      rw [List.indexOf_cons_ne rest (hmem2 a ha).symm,
        List.indexOf_cons_ne rest (hmem2 b hb).symm]
      exact Nat.succ_lt_succ hlt
    · simp only [dedupAux, if_neg hn]
      refine List.Pairwise.cons ?_ ?_
      · intro b hb
        rw [List.indexOf_cons_self, List.indexOf_cons_ne rest (hmem b hb).symm]
        exact Nat.succ_pos _
      · refine List.Pairwise.imp_of_mem ?_ (ih (n :: seen))
        intro a b ha hb hlt
        rw [List.indexOf_cons_ne rest (hmem a ha).symm,
          List.indexOf_cons_ne rest (hmem b hb).symm]
        exact Nat.succ_lt_succ hlt

/-- C6: the pre-scan deduplication (src/main.py:155-161) keeps exactly the
first occurrence of each collected ordinal in first-seen order — the
result is duplicate-free, a subsequence of the input with the same
membership, ordered by position of first occurrence — and it is
idempotent, so a second pre-scan of an unchanged listing yields the same
ordinal sequence in the same order. -/
theorem dedupFirstSeen_spec (l : List Nat) :
    (dedupFirstSeen l).Nodup
    ∧ List.Sublist (dedupFirstSeen l) l
    ∧ (∀ a, a ∈ dedupFirstSeen l ↔ a ∈ l)
    ∧ (dedupFirstSeen l).Pairwise (fun a b => l.indexOf a < l.indexOf b)
    ∧ dedupFirstSeen (dedupFirstSeen l) = dedupFirstSeen l := by
  refine ⟨nodup_dedupAux l [], dedupAux_sublist l [], ?_, dedupAux_pairwise_indexOf l [], ?_⟩
  · intro a
    rw [dedupFirstSeen, mem_dedupAux]
    simp
  · exact dedupAux_eq_self_of_nodup _ [] (nodup_dedupAux l []) (by simp)

-- Lemmas about the selector cascade -------------------------------------

theorem find_element_none_iff {H : Type} (ctx : String → List H) :
    ∀ selectors : List String,
      find_element_by_selectors ctx selectors = none ↔ ∀ s ∈ selectors, ctx s = [] := by
  intro selectors
  induction selectors with
  | nil => simp [find_element_by_selectors]
  | cons s rest ih =>
    cases hs : ctx s with
    | nil =>
      simp only [find_element_by_selectors, hs, ih, List.mem_cons]
      constructor
      · intro h t ht
        rcases ht with rfl | ht
        · exact hs
        · exact h t ht
      · intro h t ht
        exact h t (Or.inr ht)
    | cons x xs =>
      simp only [find_element_by_selectors, hs]
      constructor
      · intro h; cases h
      · intro h
        exact absurd (h s (List.mem_cons_self s rest)) (by simp [hs])

/-- C3: `find_element_by_selectors` (src/main.py:267-289) returns `none`
exactly when every selector in the ordered list yields zero matches, and
when it returns a handle, that handle is the first match of the first
selector (in list order) with a non-zero match count: every earlier
selector matched nothing. -/
theorem find_element_by_selectors_spec {H : Type} (ctx : String → List H)
    (selectors : List String) :
    (find_element_by_selectors ctx selectors = none ↔ ∀ s ∈ selectors, ctx s = [])
    ∧ (∀ h s, find_element_by_selectors ctx selectors = some (h, s) →
        ∃ pre post, selectors = pre ++ s :: post
          ∧ (∀ t ∈ pre, ctx t = []) ∧ (ctx s).head? = some h) := by
  refine ⟨find_element_none_iff ctx selectors, ?_⟩
  induction selectors with
  | nil => intro h s hc; cases hc
  | cons s0 rest ih =>
    intro h s hc
    cases hs : ctx s0 with
    | nil =>
      rw [find_element_by_selectors, hs] at hc
      obtain ⟨pre, post, h1, h2, h3⟩ := ih h s hc
      refine ⟨s0 :: pre, post, by rw [h1]; rfl, ?_, h3⟩
      intro t ht
      rcases List.mem_cons.mp ht with rfl | ht
      · exact hs
      · exact h2 t ht
    | cons x xs =>
      rw [find_element_by_selectors, hs] at hc
      simp only [Option.some.injEq, Prod.mk.injEq] at hc
      obtain ⟨rfl, rfl⟩ := hc
      refine ⟨[], rest, rfl, ?_, ?_⟩
      · intro t ht; cases ht
      · rw [hs]; rfl

/-- Concrete instantiation of the selector-cascade theorem: a context where
the first selector has no match and the second has two matches. -/
def exCtx : String → List Nat :=
  fun s => if s = "b" then [7, 9] else []

theorem find_element_by_selectors_spec_witness :
    (find_element_by_selectors exCtx ["a", "b"] = none ↔ ∀ s ∈ ["a", "b"], exCtx s = [])
    ∧ ∃ pre post, ["a", "b"] = pre ++ "b" :: post
        ∧ (∀ t ∈ pre, exCtx t = []) ∧ (exCtx "b").head? = some 7 :=
  ⟨(find_element_by_selectors_spec exCtx ["a", "b"]).1,
   (find_element_by_selectors_spec exCtx ["a", "b"]).2 7 "b" (by rfl)⟩

-- Lemmas about stripping and sanitization --------------------------------

theorem dropWhile_idem {α : Type} (p : α → Bool) (l : List α) :
    (l.dropWhile p).dropWhile p = l.dropWhile p := by
  induction l with
  | nil => rfl
  | cons x xs ih =>
    by_cases h : p x
    · rw [List.dropWhile_cons_of_pos h, ih]
    · rw [List.dropWhile_cons_of_neg h, List.dropWhile_cons_of_neg h]

theorem dropWhile_eq_self_head {α : Type} (p : α → Bool) (a : α) (t : List α)
    (h : (a :: t).dropWhile p = a :: t) : p a = false := by
  by_cases hp : p a
  · rw [List.dropWhile_cons_of_pos hp] at h
    have hlen := congrArg List.length h
    have hle : (t.dropWhile p).length ≤ t.length :=
      (List.dropWhile_sublist p).length_le
    simp only [List.length_cons] at hlen
    omega
  · exact Bool.of_not_eq_true hp

theorem rev_strip_eq_append {α : Type} (p : α → Bool) (l : List α) :
    l = (l.reverse.dropWhile p).reverse ++ (l.reverse.takeWhile p).reverse := by
  have h := List.takeWhile_append_dropWhile p l.reverse
  calc l = l.reverse.reverse := (List.reverse_reverse l).symm
    _ = (l.reverse.takeWhile p ++ l.reverse.dropWhile p).reverse := by rw [h]
    _ = (l.reverse.dropWhile p).reverse ++ (l.reverse.takeWhile p).reverse := by
        rw [List.reverse_append]

theorem dropWhile_rev_strip {α : Type} (p : α → Bool) (l : List α)
    (h : l.dropWhile p = l) :
    ((l.reverse.dropWhile p).reverse).dropWhile p = (l.reverse.dropWhile p).reverse := by
  cases hm : (l.reverse.dropWhile p).reverse with
  | nil => rfl
  | cons a t =>
    have hsplit := rev_strip_eq_append p l
    rw [hm] at hsplit
    have hpa : p a = false := by
      have h2 := h
      rw [hsplit, List.cons_append] at h2
      exact dropWhile_eq_self_head p a _ h2
    rw [List.dropWhile_cons_of_neg (by simp [hpa])]

theorem stripChars_dropWhile (l : List Char) :
    (stripChars l).dropWhile pyWhitespaceChar = stripChars l := by
  rw [stripChars]
  exact dropWhile_rev_strip pyWhitespaceChar (l.dropWhile pyWhitespaceChar)
    (dropWhile_idem pyWhitespaceChar l)

theorem stripChars_reverse_dropWhile (l : List Char) :
    ((stripChars l).reverse).dropWhile pyWhitespaceChar = (stripChars l).reverse := by
  rw [stripChars, List.reverse_reverse]
  exact dropWhile_idem pyWhitespaceChar (l.dropWhile pyWhitespaceChar).reverse

theorem stripChars_idem (l : List Char) :
    stripChars (stripChars l) = stripChars l := by
  conv_lhs => rw [stripChars, stripChars_dropWhile, stripChars_reverse_dropWhile,
    List.reverse_reverse]

theorem mem_of_mem_stripChars {c : Char} {l : List Char} (h : c ∈ stripChars l) :
    c ∈ l := by
  rw [stripChars, List.mem_reverse] at h
  have h2 : c ∈ (l.dropWhile pyWhitespaceChar).reverse :=
    (List.dropWhile_sublist pyWhitespaceChar).mem h
  rw [List.mem_reverse] at h2
  exact (List.dropWhile_sublist pyWhitespaceChar).mem h2

theorem stripChars_append_ws (t : List Char) (c : Char) (hc : pyWhitespaceChar c = true)
    (hne : t ≠ []) (hleft : t.dropWhile pyWhitespaceChar = t)
    (hright : t.reverse.dropWhile pyWhitespaceChar = t.reverse) :
    stripChars (t ++ [c]) = t := by
  obtain ⟨a, t0, rfl⟩ : ∃ a t0, t = a :: t0 := by
    cases t with
    | nil => exact absurd rfl hne
    | cons a t0 => exact ⟨a, t0, rfl⟩
  have hpa2 : pyWhitespaceChar a = false := dropWhile_eq_self_head _ a t0 hleft
  rw [List.reverse_cons] at hright
  rw [stripChars, List.cons_append, List.dropWhile_cons_of_neg (by simp [hpa2])]
  simp only [List.reverse_cons, List.reverse_append, List.reverse_nil, List.nil_append,
    List.singleton_append, List.cons_append]
  rw [List.dropWhile_cons_of_pos hc, hright]
  simp [List.reverse_append]

theorem filter_marker : commentMarker.filter allowedChar = [' '] := by decide

theorem sanitizeComment_of_ne (raw : List Char)
    (h : (stripChars (raw.filter allowedChar)).isEmpty = false) :
    sanitizeComment raw = stripChars (raw.filter allowedChar) ++ commentMarker := by
  rw [sanitizeComment]
  simp only [h]
  rfl

/-- C4: the sanitization in `get_chatgpt_comment` (src/main.py:408-416)
produces either the empty result (exactly when the filtered, trimmed text
is empty) or a string of allowed characters followed by the fixed closing
marker, and sanitizing is idempotent: re-sanitizing an already-sanitized
result returns it unchanged. -/
theorem sanitizeComment_spec (raw : List Char) :
    (sanitizeComment raw = [] ↔ stripChars (raw.filter allowedChar) = [])
    ∧ (sanitizeComment raw = []
        ∨ ∃ core, sanitizeComment raw = core ++ commentMarker
            ∧ core.all allowedChar = true ∧ core.isEmpty = false)
    ∧ sanitizeComment (sanitizeComment raw) = sanitizeComment raw := by
  have hallow : ∀ c ∈ stripChars (raw.filter allowedChar), allowedChar c = true := by
    intro c hcmem
    exact List.of_mem_filter (mem_of_mem_stripChars hcmem)
  by_cases hemp : (stripChars (raw.filter allowedChar)).isEmpty = true
  · have hnil : stripChars (raw.filter allowedChar) = [] := List.isEmpty_iff.mp hemp
    have h0 : sanitizeComment raw = [] := by
      rw [sanitizeComment]; simp [hemp]
    refine ⟨⟨fun _ => hnil, fun _ => h0⟩, Or.inl h0, ?_⟩
    rw [h0]
    rw [sanitizeComment]
    simp [stripChars]
  · have hemp2 : (stripChars (raw.filter allowedChar)).isEmpty = false :=
      Bool.not_eq_true _ ▸ (Bool.eq_false_iff.mpr hemp)
    have heq := sanitizeComment_of_ne raw hemp2
    have hne : stripChars (raw.filter allowedChar) ≠ [] := by
      intro habs
      rw [habs] at hemp2
      simp at hemp2
    refine ⟨⟨fun habs => ?_, fun habs => absurd habs hne⟩, ?_, ?_⟩
    · rw [heq] at habs
      exact absurd (List.append_eq_nil.mp habs).2 (by simp [commentMarker])
    · refine Or.inr ⟨stripChars (raw.filter allowedChar), heq, ?_, hemp2⟩
      rw [List.all_eq_true]
      exact hallow
    · rw [heq]
      have hfilter : (stripChars (raw.filter allowedChar) ++ commentMarker).filter allowedChar
          = stripChars (raw.filter allowedChar) ++ [' '] := by
        rw [List.filter_append, filter_marker, List.filter_eq_self.mpr hallow]
      have hstrip : stripChars ((stripChars (raw.filter allowedChar) ++ commentMarker).filter allowedChar)
          = stripChars (raw.filter allowedChar) := by
        rw [hfilter]
        exact stripChars_append_ws _ ' ' (by decide) hne
          (stripChars_dropWhile _) (stripChars_reverse_dropWhile _)
      rw [sanitizeComment, hstrip]
      simp only [hemp2]
      rfl

-- The approval gate and the per-board processing loop --------------------

/-- Python `str.upper()` on the character list, as applied to the operator
response in `get_user_confirmation` (src/main.py:252). -/
def pyToUpper (s : String) : String :=
  String.mk (s.data.map Char.toUpper)

/-- The interactive re-prompt loop of `get_user_confirmation`
(src/main.py:251-264): consume operator console lines until a decisive
answer; `Y` approves the shown text, `N` rejects it, `FIX` reads one more
line and approves that replacement line verbatim; any other input
re-prompts.  `none` models the `input()` call raising when the console
stream is exhausted, which propagates out of the function. -/
def confirmLoop : List String → String → Option (Bool × String)
  | [], _ => none
  | r :: rest, comment_text =>
    let response := pyToUpper (pyStrip r)
    if response = "Y" then some (true, comment_text)
    else if response = "N" then some (false, comment_text)
    else if response = "FIX" then
      match rest with
      | [] => none
      | fixed :: _ => some (true, fixed)
    else confirmLoop rest comment_text

/-- `get_user_confirmation` (src/main.py:230-264): with auto-mode active
the comment is approved immediately with no console interaction;
otherwise the interactive loop decides. -/
def get_user_confirmation (autoMode : Bool) (inputs : List String)
    (comment_text : String) : Option (Bool × String) :=
  if autoMode then some (true, comment_text)
  else confirmLoop inputs comment_text

/-- Per-post environment for the processing loop of
`process_board_by_article_numbers` (src/main.py:170-216): the content
returned by `visit_post`, the comment returned by `get_chatgpt_comment`,
the operator console lines available to `get_user_confirmation`, and the
result of `post_comment` as a function of the submitted text. -/
structure PostEnv where
  content : String
  generated : String
  confirmInputs : List String
  submitOk : String → Bool

/-- Result of the for-loop over collected article numbers: `done` carries
the final comment count and attempt count; `aborted` models an exception
escaping the loop (an `input()` failure), carrying the count at that
point. -/
inductive LoopResult where
  | done (commentCount attempts : Nat)
  | aborted (commentCount : Nat)
deriving DecidableEq

/-- The comment count carried by a loop result. -/
def LoopResult.count : LoopResult → Nat
  | .done cc _ => cc
  | .aborted cc => cc

/-- The for-loop of `process_board_by_article_numbers`
(src/main.py:170-216): stop when the comment cap or the attempt cap is
reached; otherwise count the attempt, skip posts with empty or
whitespace-only content, skip failed generations, ask for confirmation
(skip on rejection, abort on console failure), submit, and increment the
count only on submission success. -/
def processArticleLoop (autoMode : Bool) (maxCc maxAtt : Nat) :
    List PostEnv → Nat → Nat → LoopResult
  | [], cc, att => .done cc att
  | e :: rest, cc, att =>
    if maxCc ≤ cc ∨ maxAtt ≤ att then .done cc att
    else if e.content = "" ∨ pyStrip e.content = "" then
      processArticleLoop autoMode maxCc maxAtt rest cc (att + 1)
    else if e.generated = "" then
      processArticleLoop autoMode maxCc maxAtt rest cc (att + 1)
    else
      match get_user_confirmation autoMode e.confirmInputs e.generated with
      | none => .aborted cc
      | some (false, _) => processArticleLoop autoMode maxCc maxAtt rest cc (att + 1)
      | some (true, text) =>
        if e.submitOk text then processArticleLoop autoMode maxCc maxAtt rest (cc + 1) (att + 1)
        else processArticleLoop autoMode maxCc maxAtt rest cc (att + 1)

/-- `process_board_by_article_numbers` (src/main.py:163-227), processing
phase: with no collected article numbers the board is skipped with exit
flag false; otherwise the loop runs, an escaped exception yields the
current count with flag false (outer `except`, src/main.py:225-227), and
otherwise the flag is true exactly when the count reached the cap
(src/main.py:218-223). -/
def process_board_by_article_numbers (autoMode : Bool) (article_list : List PostEnv)
    (comment_count max_comment_count max_attempts_per_board : Nat) : Nat × Bool :=
  if article_list.isEmpty then (comment_count, false)
  else
    match processArticleLoop autoMode max_comment_count max_attempts_per_board
        article_list comment_count 0 with
    | .aborted cc2 => (cc2, false)
    | .done cc2 _ => if max_comment_count ≤ cc2 then (cc2, true) else (cc2, false)

/-- The board loop of `main` (src/main.py:750-777): process boards in
order, threading the comment count, and stop as soon as a board returns
the exit flag. -/
def mainBoardsLoop (autoMode : Bool) (max_comment_count : Nat) :
    List (List PostEnv) → Nat → Nat
  | [], cc => cc
  | b :: rest, cc =>
    let r := process_board_by_article_numbers autoMode b cc max_comment_count 500
    if r.2 then r.1 else mainBoardsLoop autoMode max_comment_count rest r.1

/-- Environment of `get_chatgpt_comment` (src/main.py:371-423): whether a
client was passed in, the `OPENAI_API_KEY` value, and the model response
(`none` models the client call raising). -/
structure GenEnv where
  clientProvided : Bool
  apiKey : Option String
  response : Option String

/-- `get_chatgpt_comment` (src/main.py:371-423): no client and no usable
API key yields the empty string; a raised client error yields the empty
string (outer `except`, src/main.py:421-423); otherwise the raw response
text is sanitized. -/
def get_chatgpt_comment (env : GenEnv) : String :=
  if env.clientProvided = false ∧ (env.apiKey = none ∨ env.apiKey = some "") then ""
  else
    match env.response with
    | none => ""
    | some out => sanitizeStr out

-- Lemmas about the processing loop ---------------------------------------

theorem processArticleLoop_count_le (auto : Bool) (maxCc maxAtt : Nat) :
    ∀ (articles : List PostEnv) (cc att : Nat), cc ≤ maxCc →
      (processArticleLoop auto maxCc maxAtt articles cc att).count ≤ maxCc := by
  intro articles
  induction articles with
  | nil => intro cc att h; exact h
  | cons e rest ih =>
    intro cc att h
    rw [processArticleLoop]
    by_cases h1 : maxCc ≤ cc ∨ maxAtt ≤ att
    · rw [if_pos h1]; exact h
    · rw [if_neg h1]
      have hlt : cc < maxCc := by
        rcases Nat.lt_or_ge cc maxCc with h2 | h2
        · exact h2
        · exact absurd (Or.inl h2) h1
      by_cases h2 : e.content = "" ∨ pyStrip e.content = ""
      · rw [if_pos h2]; exact ih cc (att + 1) h
      · rw [if_neg h2]
        by_cases h3 : e.generated = ""
        · rw [if_pos h3]; exact ih cc (att + 1) h
        · rw [if_neg h3]
          cases hconf : get_user_confirmation auto e.confirmInputs e.generated with
          | none => exact h
          | some pr =>
            obtain ⟨b, text⟩ := pr
            cases b with
            | false => exact ih cc (att + 1) h
            | true =>
              by_cases h4 : e.submitOk text
              · simp only [h4, if_true]
                exact ih (cc + 1) (att + 1) hlt
              · simp only [h4, if_false]
                exact ih cc (att + 1) h

theorem processArticleLoop_aborted_lt (auto : Bool) (maxCc maxAtt : Nat) :
    ∀ (articles : List PostEnv) (cc att cc2 : Nat),
      processArticleLoop auto maxCc maxAtt articles cc att = .aborted cc2 →
      cc2 < maxCc := by
  intro articles
  induction articles with
  | nil => intro cc att cc2 h; cases h
  | cons e rest ih =>
    intro cc att cc2 h
    rw [processArticleLoop] at h
    by_cases h1 : maxCc ≤ cc ∨ maxAtt ≤ att
    · rw [if_pos h1] at h; cases h
    · rw [if_neg h1] at h
      have hlt : cc < maxCc := by
        rcases Nat.lt_or_ge cc maxCc with h2 | h2
        · exact h2
        · exact absurd (Or.inl h2) h1
      by_cases h2 : e.content = "" ∨ pyStrip e.content = ""
      · rw [if_pos h2] at h; exact ih cc (att + 1) cc2 h
      · rw [if_neg h2] at h
        by_cases h3 : e.generated = ""
        · rw [if_pos h3] at h; exact ih cc (att + 1) cc2 h
        · rw [if_neg h3] at h
          cases hconf : get_user_confirmation auto e.confirmInputs e.generated with
          | none =>
            rw [hconf] at h
            cases h
            exact hlt
          | some pr =>
            obtain ⟨b, text⟩ := pr
            rw [hconf] at h
            cases b with
            | false => exact ih cc (att + 1) cc2 h
            | true =>
              by_cases h4 : e.submitOk text
              · simp only [h4, if_true] at h
                exact ih (cc + 1) (att + 1) cc2 h
              · simp only [h4, if_false] at h
                exact ih cc (att + 1) cc2 h

theorem process_board_count_le (auto : Bool) (b : List PostEnv)
    (cc maxCc maxAtt : Nat) (h : cc ≤ maxCc) :
    (process_board_by_article_numbers auto b cc maxCc maxAtt).1 ≤ maxCc := by
  rw [process_board_by_article_numbers]
  by_cases hb : b.isEmpty
  · rw [if_pos hb]; exact h
  · rw [if_neg hb]
    cases hr : processArticleLoop auto maxCc maxAtt b cc 0 with
    | aborted cc2 =>
      have := processArticleLoop_count_le auto maxCc maxAtt b cc 0 h
      rw [hr] at this
      exact this
    | done cc2 att2 =>
      have := processArticleLoop_count_le auto maxCc maxAtt b cc 0 h
      rw [hr] at this
      show (if maxCc ≤ cc2 then ((cc2 : Nat), true) else (cc2, false)).1 ≤ maxCc
      by_cases hc : maxCc ≤ cc2
      · rw [if_pos hc]; exact this
      · rw [if_neg hc]; exact this

theorem mainBoardsLoop_le (auto : Bool) (maxCc : Nat) :
    ∀ (boards : List (List PostEnv)) (cc : Nat), cc ≤ maxCc →
      mainBoardsLoop auto maxCc boards cc ≤ maxCc := by
  intro boards
  induction boards with
  | nil => intro cc h; exact h
  | cons b rest ih =>
    intro cc h
    rw [mainBoardsLoop]
    have hcount := process_board_count_le auto b cc maxCc 500 h
    by_cases hf : (process_board_by_article_numbers auto b cc maxCc 500).2
    · simp only [hf, if_true]
      exact hcount
    · simp only [hf, if_false]
      exact ih _ hcount

/-- C1: with a comment cap of `N`, the run controller never lets the
comment count exceed `N` (starting from 0, at most `N` successful
submissions happen); whenever a board with a non-empty article list ends
with the count at the cap, its exit flag is true; and a true exit flag
makes the main loop stop immediately, skipping all remaining boards. -/
theorem run_comment_cap (auto : Bool) (boards : List (List PostEnv)) (N : Nat) :
    mainBoardsLoop auto N boards 0 ≤ N
    ∧ (∀ b cc, b.isEmpty = false →
        N ≤ (process_board_by_article_numbers auto b cc N 500).1 →
        (process_board_by_article_numbers auto b cc N 500).2 = true)
    ∧ (∀ b rest cc, (process_board_by_article_numbers auto b cc N 500).2 = true →
        mainBoardsLoop auto N (b :: rest) cc
          = (process_board_by_article_numbers auto b cc N 500).1) := by
  refine ⟨mainBoardsLoop_le auto N boards 0 (Nat.zero_le N), ?_, ?_⟩
  · intro b cc hb hcap
    rw [process_board_by_article_numbers] at hcap ⊢
    rw [hb] at hcap ⊢
    simp only [Bool.false_eq_true, if_false] at hcap ⊢
    cases hr : processArticleLoop auto N 500 b cc 0 with
    | aborted cc2 =>
      rw [hr] at hcap
      have hcap2 : N ≤ cc2 := hcap
      exact absurd (processArticleLoop_aborted_lt auto N 500 b cc 0 cc2 hr)
        (Nat.not_lt.mpr hcap2)
    | done cc2 att2 =>
      rw [hr] at hcap
      have hcap2 : N ≤ (if N ≤ cc2 then ((cc2 : Nat), true) else (cc2, false)).1 := hcap
      show (if N ≤ cc2 then ((cc2 : Nat), true) else (cc2, false)).2 = true
      by_cases hc : N ≤ cc2
      · rw [if_pos hc]
      · rw [if_neg hc] at hcap2
        exact absurd hcap2 hc
  · intro b rest cc hflag
    rw [mainBoardsLoop]
    simp only [hflag, if_true]

/-- A post whose submission always succeeds, processed under auto-mode. -/
def postOk : PostEnv :=
  { content := "본문 내용", generated := "좋은 글이네요! :)",
    confirmInputs := [], submitOk := fun _ => true }

theorem run_comment_cap_witness :
    mainBoardsLoop true 1 [[postOk]] 0 ≤ 1
    ∧ (process_board_by_article_numbers true [postOk] 0 1 500).2 = true
    ∧ mainBoardsLoop true 1 ([postOk] :: [[postOk]]) 0
        = (process_board_by_article_numbers true [postOk] 0 1 500).1 :=
  ⟨(run_comment_cap true [[postOk]] 1).1,
   (run_comment_cap true [[postOk]] 1).2.1 [postOk] 0 (by decide) (by decide),
   (run_comment_cap true [[postOk]] 1).2.2 [postOk] [[postOk]] 0
     ((run_comment_cap true [[postOk]] 1).2.1 [postOk] 0 (by decide) (by decide))⟩

theorem processArticleLoop_all_empty (auto : Bool) (maxCc maxAtt : Nat) :
    ∀ (articles : List PostEnv) (cc att : Nat),
      (∀ e ∈ articles, e.content = "" ∨ pyStrip e.content = "") →
      cc < maxCc → att ≤ maxAtt →
      processArticleLoop auto maxCc maxAtt articles cc att
        = .done cc (min (att + articles.length) maxAtt) := by
  intro articles
  induction articles with
  | nil =>
    intro cc att hall hcc hatt
    rw [processArticleLoop]
    simp only [List.length_nil, Nat.add_zero]
    rw [Nat.min_eq_left hatt]
  | cons e rest ih =>
    intro cc att hall hcc hatt
    rw [processArticleLoop]
    by_cases h1 : maxAtt ≤ att
    · rw [if_pos (Or.inr h1)]
      have : min (att + List.length (e :: rest)) maxAtt = att := by
        simp only [List.length_cons]
        omega
      rw [this]
    · rw [if_neg (not_or.mpr ⟨Nat.not_le.mpr hcc, h1⟩)]
      rw [if_pos (hall e (List.mem_cons_self e rest))]
      rw [ih cc (att + 1) (fun x hx => hall x (List.mem_cons_of_mem e hx)) hcc
        (Nat.succ_le_of_lt (Nat.lt_of_not_le h1))]
      have : min (att + 1 + rest.length) maxAtt
          = min (att + List.length (e :: rest)) maxAtt := by
        simp only [List.length_cons]
        omega
      rw [this]

/-- C7: when every collected post has empty or whitespace-only content,
the processing loop (src/main.py:170-216) skips each one before
generation, posts no comment, consumes one attempt per visited post (up
to the attempt cap), and the board function returns the unchanged count
with exit flag false. -/
theorem board_all_empty_spec (auto : Bool) (articles : List PostEnv)
    (cc maxCc maxAtt : Nat)
    (hall : ∀ e ∈ articles, e.content = "" ∨ pyStrip e.content = "")
    (hcc : cc < maxCc) :
    processArticleLoop auto maxCc maxAtt articles cc 0
        = .done cc (min articles.length maxAtt)
    ∧ process_board_by_article_numbers auto articles cc maxCc maxAtt = (cc, false) := by
  have hloop := processArticleLoop_all_empty auto maxCc maxAtt articles cc 0 hall hcc
    (Nat.zero_le _)
  rw [Nat.zero_add] at hloop
  refine ⟨hloop, ?_⟩
  rw [process_board_by_article_numbers]
  by_cases hb : articles.isEmpty
  · rw [if_pos hb]
  · rw [if_neg hb, hloop]
    show (if maxCc ≤ cc then ((cc : Nat), true) else (cc, false)) = (cc, false)
    rw [if_neg (Nat.not_le.mpr hcc)]

/-- A post with empty extracted content: the skip case of the loop. -/
def postEmpty : PostEnv :=
  { content := "", generated := "", confirmInputs := [], submitOk := fun _ => false }

theorem board_all_empty_spec_witness :
    processArticleLoop false 60 3 [postEmpty, postEmpty, postEmpty] 0 0 = .done 0 3
    ∧ process_board_by_article_numbers false [postEmpty, postEmpty, postEmpty] 0 60 3
        = (0, false) := by
  have h := board_all_empty_spec false [postEmpty, postEmpty, postEmpty] 0 60 3
    (by decide) (by decide)
  exact ⟨by rw [h.1]; decide, h.2⟩

/-- C9: every modelled client failure in `get_chatgpt_comment` — missing
API key without a provided client, a raised client call, or a response
whose filtered text is empty — yields the empty string rather than an
exception, and the processing loop then skips the post without touching
the comment count. -/
theorem generation_failure_spec (env : GenEnv) (auto : Bool) (e : PostEnv)
    (rest : List PostEnv) (cc maxCc att maxAtt : Nat) :
    (env.clientProvided = false → (env.apiKey = none ∨ env.apiKey = some "") →
      get_chatgpt_comment env = "")
    ∧ (env.response = none → get_chatgpt_comment env = "")
    ∧ (∀ out, env.response = some out →
        stripChars (out.data.filter allowedChar) = [] → get_chatgpt_comment env = "")
    ∧ (cc < maxCc → att < maxAtt →
        ¬(e.content = "" ∨ pyStrip e.content = "") → e.generated = "" →
        processArticleLoop auto maxCc maxAtt (e :: rest) cc att
          = processArticleLoop auto maxCc maxAtt rest cc (att + 1)) := by
  refine ⟨?_, ?_, ?_, ?_⟩
  · intro h1 h2
    rw [get_chatgpt_comment, if_pos ⟨h1, h2⟩]
  · intro h1
    rw [get_chatgpt_comment]
    by_cases hq : env.clientProvided = false ∧ (env.apiKey = none ∨ env.apiKey = some "")
    · rw [if_pos hq]
    · rw [if_neg hq, h1]
  · intro out h1 h2
    rw [get_chatgpt_comment]
    by_cases hq : env.clientProvided = false ∧ (env.apiKey = none ∨ env.apiKey = some "")
    · rw [if_pos hq]
    · rw [if_neg hq, h1]
      show sanitizeStr out = ""
      have hz : sanitizeComment out.data = [] := by
        rw [sanitizeComment]
        simp [h2]
      rw [sanitizeStr, hz]
  · intro h1 h2 h3 h4
    rw [processArticleLoop, if_neg (not_or.mpr ⟨Nat.not_le.mpr h1, Nat.not_le.mpr h2⟩),
      if_neg h3, if_pos h4]

/-- Generation environment with no client and no API key. -/
def genNoKey : GenEnv :=
  { clientProvided := false, apiKey := none, response := some "좋은 글" }

/-- Generation environment where the client call raises. -/
def genRaise : GenEnv :=
  { clientProvided := true, apiKey := some "k", response := none }

/-- Generation environment whose response has no allowed character. -/
def genUnusable : GenEnv :=
  { clientProvided := true, apiKey := some "k", response := some "~!@#" }

/-- A post whose generation failed (empty generated comment). -/
def postGenFail : PostEnv :=
  { content := "본문", generated := "", confirmInputs := [], submitOk := fun _ => false }

theorem generation_failure_spec_witness :
    get_chatgpt_comment genNoKey = ""
    ∧ get_chatgpt_comment genRaise = ""
    ∧ get_chatgpt_comment genUnusable = ""
    ∧ processArticleLoop false 60 500 [postGenFail] 0 0
        = processArticleLoop false 60 500 [] 0 1 :=
  ⟨(generation_failure_spec genNoKey false postGenFail [] 0 60 0 500).1 rfl (Or.inl rfl),
   (generation_failure_spec genRaise false postGenFail [] 0 60 0 500).2.1 rfl,
   (generation_failure_spec genUnusable false postGenFail [] 0 60 0 500).2.2.1
     "~!@#" rfl (by decide),
   (generation_failure_spec genUnusable false postGenFail [] 0 60 0 500).2.2.2
     (by decide) (by decide) (by decide) rfl⟩

/-- C10: answering `FIX` at the approval prompt returns the next console
line verbatim as an approved comment — no sanitization, trimming or
marker is applied, and even an empty replacement is approved — and the
processing loop hands exactly that replacement text to the submission
step. -/
theorem fix_replacement_spec (fixText : String) (moreInputs : List String) (t : String)
    (e : PostEnv) (rest : List PostEnv) (cc maxCc att maxAtt : Nat) :
    get_user_confirmation false ("FIX" :: fixText :: moreInputs) t = some (true, fixText)
    ∧ (cc < maxCc → att < maxAtt →
        ¬(e.content = "" ∨ pyStrip e.content = "") → ¬(e.generated = "") →
        e.confirmInputs = "FIX" :: fixText :: moreInputs →
        processArticleLoop false maxCc maxAtt (e :: rest) cc att
          = if e.submitOk fixText = true
            then processArticleLoop false maxCc maxAtt rest (cc + 1) (att + 1)
            else processArticleLoop false maxCc maxAtt rest cc (att + 1)) := by
  have hconf : ∀ t2 : String,
      get_user_confirmation false ("FIX" :: fixText :: moreInputs) t2
        = some (true, fixText) := by
    intro t2
    rfl
  refine ⟨hconf t, ?_⟩
  intro h1 h2 h3 h4 h5
  rw [processArticleLoop, if_neg (not_or.mpr ⟨Nat.not_le.mpr h1, Nat.not_le.mpr h2⟩),
    if_neg h3, if_neg h4, h5, hconf e.generated]

/-- A post whose operator interaction revises the comment via `FIX`. -/
def postFix : PostEnv :=
  { content := "리뷰 본문", generated := "원래 댓글! :)",
    confirmInputs := ["FIX", "@@@"], submitOk := fun _ => true }

theorem fix_replacement_spec_witness :
    get_user_confirmation false ["FIX", ""] "원래 댓글! :)" = some (true, "")
    ∧ get_user_confirmation false ["FIX", "@@@"] "원래 댓글! :)" = some (true, "@@@")
    ∧ sanitizeStr "@@@" ≠ "@@@"
    ∧ processArticleLoop false 60 500 [postFix] 0 0
        = if postFix.submitOk "@@@" = true
          then processArticleLoop false 60 500 [] 1 1
          else processArticleLoop false 60 500 [] 0 1 :=
  ⟨(fix_replacement_spec "" [] "원래 댓글! :)" postFix [] 0 60 0 500).1,
   (fix_replacement_spec "@@@" [] "원래 댓글! :)" postFix [] 0 60 0 500).1,
   by decide,
   (fix_replacement_spec "@@@" [] "원래 댓글! :)" postFix [] 0 60 0 500).2
     (by decide) (by decide) (by decide) (by decide) rfl⟩

/-- C8: with auto-mode enabled, a generated response of `"맛집이네요"` is
sanitized to `"맛집이네요! :)"`, and `get_user_confirmation` approves it
with that exact text for every possible console-input stream — no input
is consumed, so the gate never blocks. -/
theorem auto_mode_spec (inputs : List String) :
    get_chatgpt_comment
        { clientProvided := true, apiKey := some "key", response := some "맛집이네요" }
      = "맛집이네요! :)"
    ∧ get_user_confirmation true inputs "맛집이네요! :)" = some (true, "맛집이네요! :)") := by
  refine ⟨by decide, ?_⟩
  rw [get_user_confirmation, if_pos rfl]

-- Content extraction: visit_post -----------------------------------------

/-- The title selectors tried by `visit_post` (src/main.py:549-561). -/
def title_selectors : List String :=
  [".title_text", "h1", "h2", "h3", ".article_title", ".title_subject", ".tit",
   ".post_title", ".article_head h3", "div.title", ".title_area"]

/-- The combined body selector used in iframe mode (src/main.py:586). -/
def iframeContentSelector : String :=
  ".se-main-container, .ArticleContentBox, div.article_viewer, #content"

/-- The body selectors tried in flat-page mode (src/main.py:593-599). -/
def content_selectors : List String :=
  [".se-main-container", ".article_viewer", "[class*=\x27ArticleContent\x27]",
   "article", ".post_ct"]

/-- Environment of `visit_post` (src/main.py:520-643): whether the
navigation sequence raises, whether the cafe iframe is present, the
`inner_text` outcome per selector (`none` models zero matches or a raised
or timed-out read), and the whole-document body text (`none` models a
raised read). -/
structure VisitEnv where
  navRaises : Bool
  iframeExists : Bool
  queryText : String → Option String
  bodyText : Option String

/-- Title extraction of `visit_post` (src/main.py:546-579): first selector
whose text is non-empty after stripping wins; failures just move on. -/
def extractTitle (q : String → Option String) : List String → Option String
  | [] => none
  | sel :: rest =>
    match q sel with
    | none => extractTitle q rest
    | some t =>
      let t2 := pyStrip t
      if t2 ≠ "" then some t2 else extractTitle q rest

/-- The flat-mode body cascade of `visit_post` (src/main.py:601-609): the
`content` variable keeps the last successfully read text; the loop breaks
on the first non-empty, non-whitespace read. -/
def flatContentCascade (q : String → Option String) : List String → String → String
  | [], acc => acc
  | sel :: rest, acc =>
    match q sel with
    | none => flatContentCascade q rest acc
    | some c => if c ≠ "" ∧ pyStrip c ≠ "" then c else flatContentCascade q rest c

/-- The body text obtained before the whole-document fallback
(src/main.py:582-611): one combined-selector read in iframe mode, the
selector cascade in flat mode; a raised read leaves the initial `""`. -/
def extractedBeforeFallback (env : VisitEnv) : String :=
  if env.iframeExists then
    match env.queryText iframeContentSelector with
    | some c => c
    | none => ""
  else
    flatContentCascade env.queryText content_selectors ""

/-- The whole-document fallback read (src/main.py:613-619): the body text,
or `""` when that read raises. -/
def bodyFallback (env : VisitEnv) : String :=
  match env.bodyText with
  | some b => b
  | none => ""

/-- The record returned by `visit_post` (src/main.py:631-643). -/
structure PostData where
  title : String
  url : String
  content : String
deriving DecidableEq

/-- The whole-document fallback decision of `visit_post`
(src/main.py:613-619): keep the selector-based text unless it is empty or
whitespace-only, in which case read the document body. -/
def visitContentRaw (env : VisitEnv) : String :=
  if extractedBeforeFallback env = "" ∨ pyStrip (extractedBeforeFallback env) = ""
  then bodyFallback env
  else extractedBeforeFallback env

/-- `visit_post` (src/main.py:520-643): navigate, extract a title and the
body text via cascades, fall back to the whole document when the body is
empty or whitespace-only, strip the result (src/main.py:621); any
exception in the outer try returns the record with empty content
(src/main.py:637-643). -/
def visit_post (env : VisitEnv) (post_url post_title : String) : PostData :=
  if env.navRaises then { title := post_title, url := post_url, content := "" }
  else
    { title :=
        match extractTitle env.queryText title_selectors with
        | some t => if t ≠ "" ∧ pyStrip t ≠ "" then t else post_title
        | none => post_title
      url := post_url
      content := pyStrip (visitContentRaw env) }

theorem pyStrip_idem (s : String) : pyStrip (pyStrip s) = pyStrip s := by
  rw [pyStrip, pyStrip]
  exact congrArg String.mk (stripChars_idem s.data)

/-- C5: `visit_post` always returns a record whose content field is
whitespace-trimmed; when the extraction raises, content is the empty
string; when the selector-based extraction is empty or whitespace-only,
the content is the stripped whole-document fallback, and the empty string
when that read also fails; the record carries the requested URL. -/
theorem visit_post_spec (env : VisitEnv) (post_url post_title : String) :
    pyStrip (visit_post env post_url post_title).content
        = (visit_post env post_url post_title).content
    ∧ (env.navRaises = true → (visit_post env post_url post_title).content = "")
    ∧ (env.navRaises = false →
        (extractedBeforeFallback env = "" ∨ pyStrip (extractedBeforeFallback env) = "") →
        (visit_post env post_url post_title).content = pyStrip (bodyFallback env))
    ∧ (env.navRaises = false → env.bodyText = none →
        (extractedBeforeFallback env = "" ∨ pyStrip (extractedBeforeFallback env) = "") →
        (visit_post env post_url post_title).content = "")
    ∧ (visit_post env post_url post_title).url = post_url := by
  refine ⟨?_, ?_, ?_, ?_, ?_⟩
  · by_cases hn : env.navRaises = true
    · rw [visit_post, if_pos hn]
      rfl
    · rw [visit_post, if_neg hn]
      exact pyStrip_idem _
  · intro hn
    rw [visit_post, if_pos hn]
  · intro hn hemp
    rw [visit_post, if_neg (by rw [hn]; exact Bool.false_ne_true)]
    show pyStrip (visitContentRaw env) = pyStrip (bodyFallback env)
    rw [visitContentRaw, if_pos hemp]
  · intro hn hbody hemp
    rw [visit_post, if_neg (by rw [hn]; exact Bool.false_ne_true)]
    show pyStrip (visitContentRaw env) = ""
    rw [visitContentRaw, if_pos hemp, bodyFallback, hbody]
    rfl
  · by_cases hn : env.navRaises = true
    · rw [visit_post, if_pos hn]
    · rw [visit_post, if_neg hn]

/-- Environment where every selector read fails but the whole-document
read succeeds: the fallback path of `visit_post`. -/
def visitEnvFallback : VisitEnv :=
  { navRaises := false, iframeExists := false,
    queryText := fun _ => none, bodyText := some "  전체 문서 텍스트  " }

/-- Environment where the navigation itself raises. -/
def visitEnvRaise : VisitEnv :=
  { navRaises := true, iframeExists := false,
    queryText := fun _ => none, bodyText := none }

theorem visit_post_spec_witness :
    pyStrip (visit_post visitEnvFallback "url1" "t1").content
        = (visit_post visitEnvFallback "url1" "t1").content
    ∧ (visit_post visitEnvFallback "url1" "t1").content
        = pyStrip "  전체 문서 텍스트  "
    ∧ (visit_post visitEnvRaise "url1" "t1").content = "" :=
  ⟨(visit_post_spec visitEnvFallback "url1" "t1").1,
   (visit_post_spec visitEnvFallback "url1" "t1").2.2.1 rfl (by decide),
   (visit_post_spec visitEnvRaise "url1" "t1").2.1 rfl⟩

-- Submission engine: post_comment ----------------------------------------

/-- `process_comment_input` (src/main.py:292-327): scroll, click, clear,
fill and read back, all inside one try; the parameter says whether any of
those primitives raises, in which case the helper returns false. -/
def process_comment_input (fillRaises : Bool) : Bool :=
  !fillRaises

/-- Environment of `click_submit_button` (src/main.py:330-368): which of
its browser primitives raise. -/
structure ClickEnv where
  scrollRaises : Bool
  activationWaitRaises : Bool
  forceClickRaises : Bool
  jsClickRaises : Bool

/-- `click_submit_button` (src/main.py:330-368): scroll to the control,
wait (bounded) for the active-state signal — a timeout there is caught
and only logged (src/main.py:348-352) — then force-click, falling back to
a JS click; false only when an exception escapes the outer try. -/
def click_submit_button (env : ClickEnv) : Bool :=
  if env.scrollRaises then false
  else if env.forceClickRaises then
    if env.jsClickRaises then false else true
  else true

/-- Environment of `post_comment` (src/main.py:426-517): whether the
navigation block raises, whether the two selector cascades find their
element, the helper environments, and the final `input_value` re-read
(`none` models a raised read). -/
structure SubmitEnv where
  navRaises : Bool
  inputFound : Bool
  fillRaises : Bool
  buttonFound : Bool
  click : ClickEnv
  finalRead : Option String

/-- `post_comment` (src/main.py:426-517): navigate if needed, locate the
comment field, fill it, locate the submit control, click it; each failure
returns false.  The final re-read of the field (src/main.py:502-510) sits
in its own try/except and is only logged: the function returns true
whatever the re-read yields, including when it raises. -/
def post_comment (env : SubmitEnv) : Bool :=
  if env.navRaises then false
  else if !env.inputFound then false
  else if !(process_comment_input env.fillRaises) then false
  else if !env.buttonFound then false
  else if !(click_submit_button env.click) then false
  else true

/-- Modelled from the claim's words: some exception is raised somewhere
along the submission path, counting the two tolerated sites (the
activation wait, src/main.py:348-352, and the final field re-read,
src/main.py:502-510). -/
def someExceptionRaised (env : SubmitEnv) : Bool :=
  env.navRaises || env.fillRaises || env.click.scrollRaises
    || env.click.activationWaitRaises || env.click.forceClickRaises
    || env.click.jsClickRaises || env.finalRead.isNone

/-- Submission environment where the activation wait times out and the
final re-read raises, while every load-bearing step succeeds. -/
def submitEnvTolerated : SubmitEnv :=
  { navRaises := false, inputFound := true, fillRaises := false, buttonFound := true,
    click := { scrollRaises := false, activationWaitRaises := true,
               forceClickRaises := false, jsClickRaises := false },
    finalRead := none }

/-- C2 counterexample: exceptions are raised along the way (the activation
wait times out and the final field re-read raises) yet `post_comment`
returns true, so "any exception raised along the way yields false" fails
on the code. -/
theorem post_comment_exception_counterexample :
    someExceptionRaised submitEnvTolerated = true
    ∧ post_comment submitEnvTolerated = true := by
  decide

/-- C2 amended: `post_comment` returns true exactly when the navigation
block, the input-field cascade, the fill helper, the button cascade and
the click helper all succeed; the final empty-field re-read is only
logged — its outcome, including a raised read, never changes the return
value. -/
theorem post_comment_spec (env : SubmitEnv) :
    (post_comment env = true ↔
      (env.navRaises = false ∧ env.inputFound = true ∧ env.fillRaises = false
        ∧ env.buttonFound = true ∧ click_submit_button env.click = true))
    ∧ (∀ r, post_comment { env with finalRead := r } = post_comment env) := by
  constructor
  · rcases env with ⟨nav, inp, fill, btn, clk, fr⟩
    cases nav <;> cases inp <;> cases fill <;> cases btn <;>
      by_cases hc : click_submit_button clk = true <;>
        simp [post_comment, process_comment_input, hc]
  · intro r
    rfl
